import Mathlib

set_option maxRecDepth 4000

/-!
Verification of the split → batch → merge pipeline of the translation
workspace repository (tools/split_sdlxliff.py and
tools/merge_translations.py), via a shallow embedding of the Python code.

The XML document model mirrors Python's `xml.etree.ElementTree`:
an element has a tag, an optional `id` attribute (the only attribute the
code ever reads), direct text, tail text, and a list of children.
-/

/-- A translation segment as produced by `extract_segments`:
the dict `{'id': ..., 'source': ...}`. -/
structure Segment where
  id : String
  source : String
deriving DecidableEq, Repr

/-- An XML element tree node (ElementTree element): tag, the `id`
attribute if present, direct text (`.text`, None modelled as `""`),
tail text (`.tail`, None modelled as `""`), and children. -/
inductive XElem where
  | mk (tag : String) (idAttr : Option String) (text : String)
       (tail : String) (children : List XElem) : XElem

def XElem.tag : XElem → String
  | .mk t _ _ _ _ => t

def XElem.idAttr : XElem → Option String
  | .mk _ i _ _ _ => i

def XElem.text : XElem → String
  | .mk _ _ tx _ _ => tx

def XElem.tail : XElem → String
  | .mk _ _ _ tl _ => tl

def XElem.children : XElem → List XElem
  | .mk _ _ _ _ cs => cs

/-- Python's `str.strip()`: drop leading and trailing whitespace. -/
def pyStrip (s : String) : String :=
  String.mk (((s.data.dropWhile Char.isWhitespace).reverse.dropWhile
    Char.isWhitespace).reverse)

/-- The XLIFF 1.2 namespace used by the primary dialect. -/
def xliffNS : String := "urn:oasis:names:tc:xliff:document:1.2"

/-- Tag of a namespaced trans-unit element. -/
def nsTransUnit : String := "\x7b" ++ xliffNS ++ "\x7dtrans-unit"

/-- Tag of a namespaced source element. -/
def nsSource : String := "\x7b" ++ xliffNS ++ "\x7dsource"

/-- Tag of a namespaced target element. -/
def nsTarget : String := "\x7b" ++ xliffNS ++ "\x7dtarget"

mutual

/-- `''.join(elem.itertext())`: the element's text, then for each child
its own itertext followed by the child's tail. -/
def itertextE : XElem → String
  | .mk _ _ tx _ cs => tx ++ itertextL cs

def itertextL : List XElem → String
  | [] => ""
  | c :: cs => itertextE c ++ c.tail ++ itertextL cs

end

mutual

/-- `root.iter(tag)`: all elements of the tree with the given tag,
in document (pre-order) order, the root included. -/
def iterTag (t : String) : XElem → List XElem
  | .mk tag idA tx tl cs =>
      (if tag = t then [XElem.mk tag idA tx tl cs] else []) ++ iterTagL t cs

def iterTagL (t : String) : List XElem → List XElem
  | [] => []
  | c :: cs => iterTag t c ++ iterTagL t cs

end

/-- `elem.find(tag)` restricted to a child list: first child with the tag. -/
def findChildL (t : String) (cs : List XElem) : Option XElem :=
  cs.find? (fun c => c.tag = t)

/-- `elem.find(tag)`: first direct child with the given tag. -/
def findChild (t : String) (e : XElem) : Option XElem :=
  findChildL t e.children

example : pyStrip "  a b  " = "a b" := by decide
example : itertextE (.mk "s" none "a" "" [.mk "g" none "b" "c" []]) = "abc" := rfl
example : (iterTag "u" (.mk "u" none "" "" [.mk "v" none "" "" [],
    .mk "u" (some "1") "" "" []])).length = 2 := by decide

/-!
## Batch partitioner (`split_into_batches`, tools/split_sdlxliff.py lines 69-94)

The Python loop `for i in range(num_batches): size = base_size + (1 if i <
remainder else 0); batches.append(segments[idx:idx+size]); idx += size`
is rendered as a recursion that peels slices off the front of the
remaining list: `segments[idx:idx+size]` is `take size` of the part of
`segments` not yet consumed, and the first `remainder` iterations use
size `base_size + 1`.
-/

/-- The slicing loop of `split_into_batches`: `rem` iterations of size
`base + 1` remain, then `k - rem` of size `base` (`k` iterations in all). -/
def batchLoop (base : Nat) : Nat → Nat → List Segment → List (List Segment)
  | _, 0, _ => []
  | 0, Nat.succ k, rest => rest.take base :: batchLoop base 0 k (rest.drop base)
  | Nat.succ r, Nat.succ k, rest =>
      rest.take (base + 1) :: batchLoop base r k (rest.drop (base + 1))

/-- `split_into_batches(segments, batch_size)`: zero units give zero
batches; otherwise `num_batches = max(1, ceil(total / batch_size))`
(Python `max(1, -(-total // batch_size))`), the first
`total % num_batches` batches get `total // num_batches + 1` units and
the rest `total // num_batches`, consuming the input in order. -/
def split_into_batches (segments : List Segment) (batch_size : Nat) :
    List (List Segment) :=
  let total := segments.length
  if total = 0 then []
  else
    let num_batches := max 1 ((total + batch_size - 1) / batch_size)
    let base_size := total / num_batches
    let remainder := total % num_batches
    batchLoop base_size remainder num_batches segments

theorem batchLoop_map_length (base : Nat) :
    ∀ (k r : Nat) (rest : List Segment), r ≤ k →
      rest.length = base * k + r →
      (batchLoop base r k rest).map List.length =
        List.replicate r (base + 1) ++ List.replicate (k - r) base := by
  intro k
  induction k with
  | zero =>
      intro r rest hr _
      interval_cases r
      simp [batchLoop]
  | succ k ih =>
      intro r rest hr hlen
      have hx : base * (k + 1) = base * k + base := by ring
      cases r with
      | zero =>
          have hbase : base ≤ rest.length := by omega
          simp only [batchLoop, List.map_cons]
          rw [ih 0 (rest.drop base) (Nat.zero_le _)
            (by rw [List.length_drop, hlen, hx]; omega)]
          simp [List.length_take, Nat.min_eq_left hbase, List.replicate_succ]
      | succ r =>
          have hb1 : base + 1 ≤ rest.length := by omega
          simp only [batchLoop, List.map_cons]
          rw [ih r (rest.drop (base + 1)) (by omega)
            (by rw [List.length_drop, hlen, hx]; omega)]
          simp [List.length_take, Nat.min_eq_left hb1, List.replicate_succ,
            Nat.succ_sub_succ]

theorem batchLoop_flatten (base : Nat) :
    ∀ (k r : Nat) (rest : List Segment), r ≤ k →
      (batchLoop base r k rest).flatten = rest.take (base * k + r) := by
  intro k
  induction k with
  | zero =>
      intro r rest hr
      interval_cases r
      simp [batchLoop]
  | succ k ih =>
      intro r rest hr
      cases r with
      | zero =>
          simp only [batchLoop, List.flatten_cons]
          rw [ih 0 (rest.drop base) (Nat.zero_le _)]
          have harith : base * (k + 1) + 0 = base + (base * k + 0) := by ring
          rw [harith, ← List.take_add]
      | succ r =>
          simp only [batchLoop, List.flatten_cons]
          rw [ih r (rest.drop (base + 1)) (by omega)]
          have harith : base * (k + 1) + (r + 1) = (base + 1) + (base * k + r) := by
            ring
          rw [harith, ← List.take_add]

/-- Ceiling division, as in the spec's `ceil(total / targetBatchSize)`. -/
def ceilDiv (a b : Nat) : Nat := (a + b - 1) / b

theorem batchLoop_length (base : Nat) :
    ∀ (r k : Nat) (rest : List Segment), (batchLoop base r k rest).length = k := by
  intro r k
  induction k generalizing r with
  | zero => intro rest; cases r <;> simp [batchLoop]
  | succ k ih =>
      intro rest
      cases r with
      | zero => simp [batchLoop, ih]
      | succ r => simp [batchLoop, ih]

theorem split_into_batches_eq (segments : List Segment) (bs : Nat)
    (h0 : segments ≠ []) (h1 : 1 ≤ bs) :
    split_into_batches segments bs =
      batchLoop (segments.length / ceilDiv segments.length bs)
        (segments.length % ceilDiv segments.length bs)
        (ceilDiv segments.length bs) segments := by
  have htot : 0 < segments.length := List.length_pos.mpr h0
  have hnb1 : 1 ≤ ceilDiv segments.length bs := by
    unfold ceilDiv
    rw [Nat.one_le_div_iff h1]
    omega
  have hmax : max 1 ((segments.length + bs - 1) / bs) = ceilDiv segments.length bs := by
    unfold ceilDiv
    unfold ceilDiv at hnb1
    exact Nat.max_eq_right hnb1
  simp only [split_into_batches]
  rw [if_neg (by omega), hmax]

/-- C1: for every non-empty unit list and `targetBatchSize ≥ 1`,
`split_into_batches` yields exactly `ceil(total/targetBatchSize)` batches;
with `base = total / numBatches` and `remainder = total % numBatches` the
first `remainder` batches have `base + 1` units and the rest have `base`
units, so all sizes differ by at most 1 and the sizes sum to `total`. -/
theorem C1_partition_balanced (segments : List Segment) (batch_size : Nat)
    (h0 : segments ≠ []) (h1 : 1 ≤ batch_size) :
    (split_into_batches segments batch_size).length =
      ceilDiv segments.length batch_size ∧
    (split_into_batches segments batch_size).map List.length =
      List.replicate (segments.length % ceilDiv segments.length batch_size)
        (segments.length / ceilDiv segments.length batch_size + 1) ++
      List.replicate (ceilDiv segments.length batch_size -
          segments.length % ceilDiv segments.length batch_size)
        (segments.length / ceilDiv segments.length batch_size) ∧
    ((split_into_batches segments batch_size).map List.length).sum =
      segments.length ∧
    ∀ a ∈ (split_into_batches segments batch_size).map List.length,
      ∀ b ∈ (split_into_batches segments batch_size).map List.length,
        a ≤ b + 1 := by
  have htot : 0 < segments.length := List.length_pos.mpr h0
  have hnb1 : 1 ≤ ceilDiv segments.length batch_size := by
    unfold ceilDiv
    rw [Nat.one_le_div_iff h1]
    omega
  set total := segments.length with htotdef
  set nb := ceilDiv total batch_size with hnbdef
  set base := total / nb with hbasedef
  set r := total % nb with hrdef
  have hrlt : r < nb := Nat.mod_lt total (by omega)
  have hdm : nb * base + r = total := Nat.div_add_mod total nb
  have hlen : total = base * nb + r := by rw [Nat.mul_comm base nb]; omega
  have heq := split_into_batches_eq segments batch_size h0 h1
  have hlen2 : segments.length = base * nb + r := by rw [← htotdef]; exact hlen
  have hmap := batchLoop_map_length base nb r segments (le_of_lt hrlt) hlen2
  refine ⟨?_, ?_, ?_, ?_⟩
  · rw [heq, batchLoop_length]
  · rw [heq, hmap]
  · rw [heq, hmap]
    obtain ⟨q, hq⟩ : ∃ q, nb = r + q := ⟨nb - r, by omega⟩
    have harith : r * (base + 1) + q * base = (r + q) * base + r := by ring
    simp only [List.sum_append, List.sum_replicate, smul_eq_mul]
    rw [show nb - r = q by omega, harith, ← hq, Nat.mul_comm nb base]
    omega
  · intro a ha b hb
    rw [heq, hmap] at ha hb
    rcases List.mem_append.mp ha with h | h <;>
      rcases List.mem_append.mp hb with h' | h' <;>
        rw [List.eq_of_mem_replicate h, List.eq_of_mem_replicate h'] <;> omega

/-- Witness for C1: 162 units at batch size 40 give 5 batches sized
33, 33, 32, 32, 32. -/
theorem C1_partition_balanced_witness :
    (List.replicate 162 (Segment.mk "a" "b") ≠ []) ∧ (1 ≤ 40) ∧
    ((split_into_batches (List.replicate 162 (Segment.mk "a" "b")) 40).length =
        ceilDiv (List.replicate 162 (Segment.mk "a" "b")).length 40 ∧
      (split_into_batches (List.replicate 162 (Segment.mk "a" "b")) 40).map
          List.length =
        List.replicate ((List.replicate 162 (Segment.mk "a" "b")).length %
            ceilDiv (List.replicate 162 (Segment.mk "a" "b")).length 40)
          ((List.replicate 162 (Segment.mk "a" "b")).length /
            ceilDiv (List.replicate 162 (Segment.mk "a" "b")).length 40 + 1) ++
        List.replicate (ceilDiv (List.replicate 162 (Segment.mk "a" "b")).length 40 -
            (List.replicate 162 (Segment.mk "a" "b")).length %
              ceilDiv (List.replicate 162 (Segment.mk "a" "b")).length 40)
          ((List.replicate 162 (Segment.mk "a" "b")).length /
            ceilDiv (List.replicate 162 (Segment.mk "a" "b")).length 40) ∧
      ((split_into_batches (List.replicate 162 (Segment.mk "a" "b")) 40).map
          List.length).sum = (List.replicate 162 (Segment.mk "a" "b")).length ∧
      ∀ a ∈ (split_into_batches (List.replicate 162 (Segment.mk "a" "b")) 40).map
          List.length,
        ∀ b ∈ (split_into_batches (List.replicate 162 (Segment.mk "a" "b")) 40).map
            List.length, a ≤ b + 1) ∧
    (split_into_batches (List.replicate 162 (Segment.mk "a" "b")) 40).map
        List.length = [33, 33, 32, 32, 32] :=
  ⟨by decide, by decide,
   C1_partition_balanced (List.replicate 162 (Segment.mk "a" "b")) 40
     (by decide) (by decide),
   by decide⟩

/-- C2: for every unit list and `targetBatchSize ≥ 1`, concatenating the
batches of `split_into_batches` in order reproduces the input sequence
exactly — no loss, no duplication, no reordering. -/
theorem C2_partition_concat (segments : List Segment) (batch_size : Nat)
    (h1 : 1 ≤ batch_size) :
    (split_into_batches segments batch_size).flatten = segments := by
  by_cases h0 : segments = []
  · subst h0
    simp [split_into_batches]
  · rw [split_into_batches_eq segments batch_size h0 h1]
    have htot : 0 < segments.length := List.length_pos.mpr h0
    set total := segments.length with htotdef
    set nb := ceilDiv total batch_size with hnbdef
    have hnb1 : 1 ≤ nb := by
      rw [hnbdef]
      unfold ceilDiv
      rw [Nat.one_le_div_iff h1]
      omega
    have hrlt : total % nb < nb := Nat.mod_lt total (by omega)
    rw [batchLoop_flatten (total / nb) nb (total % nb) segments (le_of_lt hrlt)]
    have hdm : nb * (total / nb) + total % nb = total := Nat.div_add_mod total nb
    rw [show total / nb * nb + total % nb = total by
      rw [Nat.mul_comm]; omega]
    rw [htotdef]
    exact List.take_length segments

/-- Witness for C2: three units at batch size 2 are flattened back to
the original sequence. -/
theorem C2_partition_concat_witness :
    (1 ≤ 2) ∧
    (split_into_batches [Segment.mk "1" "a", Segment.mk "2" "b",
        Segment.mk "3" "c"] 2).flatten =
      [Segment.mk "1" "a", Segment.mk "2" "b", Segment.mk "3" "c"] :=
  ⟨by decide,
   C2_partition_concat [Segment.mk "1" "a", Segment.mk "2" "b",
     Segment.mk "3" "c"] 2 (by decide)⟩

/-!
## C8: behaviour of `split_into_batches` on zero units
(tools/split_sdlxliff.py lines 76-78)

The code reads `if total == 0: return []` — it returns an empty batch
list and raises no error.  `partition_per_spec` below follows the spec's
words ("Fails with `EmptyInputError` ... when `total == 0`") for
comparison with the code.
-/

/-- Modelled from the spec (for comparison only, not from the source):
`partition` fails with `EmptyInputError` when given zero units, and
otherwise behaves as `split_into_batches`. -/
def partition_per_spec (segments : List Segment) (batch_size : Nat) :
    Except String (List (List Segment)) :=
  if segments.length = 0 then Except.error "EmptyInputError"
  else Except.ok (split_into_batches segments batch_size)

/-- Counterexample to C8: on zero units `split_into_batches` silently
returns the empty batch list — there is no error path in the code —
while the spec-modelled partition fails with `EmptyInputError`. -/
theorem C8_empty_input_counterexample :
    split_into_batches [] 50 = [] ∧
    partition_per_spec [] 50 = Except.error "EmptyInputError" :=
  ⟨rfl, rfl⟩

/-- C8 amended: `split_into_batches` returns the empty batch list exactly
when given zero units; emptiness is not an error of the partitioner (the
CLI caller checks for zero extracted segments before partitioning). -/
theorem C8_empty_input_amended (segments : List Segment) (batch_size : Nat)
    (h1 : 1 ≤ batch_size) :
    split_into_batches segments batch_size = [] ↔ segments = [] := by
  constructor
  · intro h
    by_contra h0
    have htot : 0 < segments.length := List.length_pos.mpr h0
    have hlen := congrArg List.length h
    rw [split_into_batches_eq segments batch_size h0 h1, batchLoop_length] at hlen
    have hnb1 : 1 ≤ ceilDiv segments.length batch_size := by
      unfold ceilDiv
      rw [Nat.one_le_div_iff h1]
      omega
    simp at hlen
    omega
  · intro h
    subst h
    simp [split_into_batches]

/-- Witness for the amended C8 at its concrete input: zero units and
batch size 50 give the empty batch list. -/
theorem C8_empty_input_amended_witness :
    (1 ≤ 50) ∧ (split_into_batches [] 50 = [] ↔ ([] : List Segment) = []) :=
  ⟨by decide, C8_empty_input_amended [] 50 (by decide)⟩

/-!
## Segment extractor (`extract_segments`, tools/split_sdlxliff.py lines 17-66)

The primary pass iterates over namespaced `trans-unit` elements and
includes a unit iff its stripped source text is non-empty and
(`extract_all` or the stripped target text is empty).  If that pass
appended nothing, a fallback pass iterates over unnamespaced
`trans-unit` elements and includes a unit iff its stripped source text
is non-empty (no target or mode check).
-/

/-- The inclusion decision of the primary (namespaced) loop for one
trans-unit, returning the appended segment if any
(lines 36-51 of split_sdlxliff.py). -/
def primarySeg (extract_all : Bool) (tu : XElem) : Option Segment :=
  match findChild nsSource tu with
  | none => none
  | some source_elem =>
      let source_text := pyStrip (itertextE source_elem)
      let target_text :=
        match findChild nsTarget tu with
        | none => ""
        | some target_elem => pyStrip (itertextE target_elem)
      if source_text ≠ "" ∧ (extract_all = true ∨ target_text = "") then
        some (Segment.mk (tu.idAttr.getD "") source_text)
      else none

/-- The inclusion decision of the fallback (unnamespaced) loop for one
trans-unit (lines 54-64 of split_sdlxliff.py): no target or mode check. -/
def fallbackSeg (tu : XElem) : Option Segment :=
  match findChild "source" tu with
  | none => none
  | some source_elem =>
      let source_text := pyStrip (itertextE source_elem)
      if source_text ≠ "" then
        some (Segment.mk (tu.idAttr.getD "") source_text)
      else none

/-- All segments the primary loop appends, in document order. -/
def primarySegs (root : XElem) (extract_all : Bool) : List Segment :=
  (iterTag nsTransUnit root).filterMap (primarySeg extract_all)

/-- All segments the fallback loop appends, in document order. -/
def fallbackSegs (root : XElem) : List Segment :=
  (iterTag "trans-unit" root).filterMap fallbackSeg

/-- `extract_segments(sdlxliff_path, extract_all)`, on the parsed root:
the primary pass, then — only if its result list is empty — the
fallback pass. -/
def extract_segments (root : XElem) (extract_all : Bool) : List Segment :=
  let segments := primarySegs root extract_all
  if segments.isEmpty then fallbackSegs root else segments

/-- The stripped concatenated text of a unit's direct child with the
given tag, `""` when the child is absent — the
`''.join(elem.itertext()).strip()` idiom of the source. -/
def slotText (t : String) (tu : XElem) : String :=
  match findChild t tu with
  | none => ""
  | some e => pyStrip (itertextE e)

/-- A document whose only namespaced trans-unit has whitespace-only
source (so the primary pass includes nothing), next to an unnamespaced
trans-unit with real source text. -/
def C3doc : XElem :=
  .mk "root" none "" "" [
    .mk nsTransUnit (some "5") "" "" [.mk nsSource none " " "" []],
    .mk "trans-unit" (some "7") "" "" [.mk "source" none "hello" "" []]]

/-- Counterexample to C3: the primary dialect yields a unit element
(excluded by the inclusion rule), yet the fallback still runs and its
segments are returned. -/
theorem C3_fallback_counterexample :
    (iterTag nsTransUnit C3doc).length = 1 ∧
    primarySegs C3doc false = [] ∧
    extract_segments C3doc false = [Segment.mk "7" "hello"] :=
  ⟨by decide, by decide, by decide⟩

/-- C3 amended: the fallback runs iff the primary pass produced zero
included segments (after the inclusion rule) — a primary unit element
that is excluded does not prevent the fallback. -/
theorem C3_fallback_dispatch (root : XElem) (extract_all : Bool) :
    (primarySegs root extract_all ≠ [] →
      extract_segments root extract_all = primarySegs root extract_all) ∧
    (primarySegs root extract_all = [] →
      extract_segments root extract_all = fallbackSegs root) := by
  constructor
  · intro h
    simp [extract_segments, List.isEmpty_iff, h]
  · intro h
    simp [extract_segments, List.isEmpty_iff, h]

/-- A document whose primary pass includes a segment. -/
def C3okDoc : XElem :=
  .mk "root" none "" "" [
    .mk nsTransUnit (some "1") "" "" [.mk nsSource none "hi" "" []]]

/-- Witness for the amended C3: with a non-empty primary result the
output is the primary result. -/
theorem C3_fallback_dispatch_witness :
    primarySegs C3okDoc false ≠ [] ∧
    extract_segments C3okDoc false = primarySegs C3okDoc false :=
  ⟨by decide, (C3_fallback_dispatch C3okDoc false).1 (by decide)⟩

/-- A document with no namespaced trans-unit and one unnamespaced
trans-unit carrying both a source and a non-empty target. -/
def C4doc : XElem :=
  .mk "root" none "" "" [
    .mk "trans-unit" (some "1") "" "" [
      .mk "source" none "hi" "" [],
      .mk "target" none "done" "" []]]

/-- Counterexample to C4: in UNTRANSLATED_ONLY mode
(`extract_all = false`) the fallback dialect still extracts a unit whose
trimmed target text is non-empty, because the fallback loop never
inspects the target or the mode. -/
theorem C4_inclusion_counterexample :
    (iterTag nsTransUnit C4doc) = [] ∧
    (iterTag "trans-unit" C4doc).map (slotText "target") = ["done"] ∧
    extract_segments C4doc false = [Segment.mk "1" "hi"] :=
  ⟨rfl, by decide, by decide⟩

/-- C4 amended: the claimed inclusion rule (non-empty trimmed source AND
(ALL mode OR empty trimmed target)) holds for the primary dialect only;
under the fallback dialect a unit is included iff its trimmed source
text is non-empty, ignoring the mode and any existing target.  The
output of `extract_segments` is the primary pass's segments or, when
those are empty, the fallback pass's segments. -/
theorem C4_inclusion_amended (extract_all : Bool) (root tu : XElem) :
    ((primarySeg extract_all tu).isSome ↔
      (slotText nsSource tu ≠ "" ∧
        (extract_all = true ∨ slotText nsTarget tu = ""))) ∧
    ((fallbackSeg tu).isSome ↔ slotText "source" tu ≠ "") ∧
    (extract_segments root extract_all =
        (iterTag nsTransUnit root).filterMap (primarySeg extract_all) ∨
      extract_segments root extract_all =
        (iterTag "trans-unit" root).filterMap fallbackSeg) := by
  refine ⟨?_, ?_, ?_⟩
  · unfold primarySeg slotText
    cases h : findChild nsSource tu with
    | none => simp
    | some source_elem =>
        cases h2 : findChild nsTarget tu with
        | none => split <;> simp_all
        | some target_elem => split <;> simp_all
  · unfold fallbackSeg slotText
    cases h : findChild "source" tu with
    | none => simp
    | some source_elem => split <;> simp_all
  · unfold extract_segments primarySegs fallbackSegs
    by_cases hc :
      (List.filterMap (primarySeg extract_all) (iterTag nsTransUnit root)).isEmpty
    · right; simp [hc]
    · left; simp [hc]

/-- The (defaulted) `id` attributes of all unit elements with the given
tag, in document order — Python's `tu.get('id', '')`. -/
def unitIds (t : String) (root : XElem) : List String :=
  (iterTag t root).map (fun tu => tu.idAttr.getD "")

/-- A document whose two namespaced trans-units carry no `id`
attribute at all. -/
def C9doc : XElem :=
  .mk "root" none "" "" [
    .mk nsTransUnit none "" "" [.mk nsSource none "a" "" []],
    .mk nsTransUnit none "" "" [.mk nsSource none "b" "" []]]

/-- Counterexample to C9: units without an `id` attribute are extracted
with the defaulted id `""` — empty, duplicated, and not an id attribute
occurring in the source document. -/
theorem C9_id_counterexample :
    (iterTag nsTransUnit C9doc).map XElem.idAttr = [none, none] ∧
    (extract_segments C9doc true).map Segment.id = ["", ""] :=
  ⟨rfl, by decide⟩

theorem filterMap_seg_id_sublist (f : XElem → Option Segment)
    (hf : ∀ tu s, f tu = some s → s.id = tu.idAttr.getD "") :
    ∀ units : List XElem,
      ((units.filterMap f).map Segment.id).Sublist
        (units.map (fun tu => tu.idAttr.getD "")) := by
  intro units
  induction units with
  | nil => simp
  | cons u us ih =>
      cases h : f u with
      | none =>
          rw [List.filterMap_cons_none h, List.map_cons]
          exact ih.cons _
      | some s =>
          rw [List.filterMap_cons_some h, List.map_cons, List.map_cons,
            hf u s h]
          exact ih.cons₂ _

theorem primarySeg_id (extract_all : Bool) (tu : XElem) (s : Segment)
    (h : primarySeg extract_all tu = some s) : s.id = tu.idAttr.getD "" := by
  unfold primarySeg at h
  revert h
  cases hfc : findChild nsSource tu with
  | none => simp
  | some source_elem =>
      dsimp only
      split_ifs with hcond
      · intro h
        cases h
        rfl
      · simp

theorem fallbackSeg_id (tu : XElem) (s : Segment)
    (h : fallbackSeg tu = some s) : s.id = tu.idAttr.getD "" := by
  unfold fallbackSeg at h
  revert h
  cases hfc : findChild "source" tu with
  | none => simp
  | some source_elem =>
      dsimp only
      split_ifs with hcond
      · intro h
        cases h
        rfl
      · simp

theorem extract_segments_eq (root : XElem) (extract_all : Bool) :
    extract_segments root extract_all =
      if (primarySegs root extract_all).isEmpty then fallbackSegs root
      else primarySegs root extract_all := rfl

/-- C9 amended: every extracted id is the (defaulted) `id` attribute of
a unit element of the source document under one of the two dialects —
extraction never fabricates other ids; and when the document's unit id
attributes are pairwise distinct and non-empty, the extracted ids are
non-empty and unique.  Without that assumption units missing the `id`
attribute are extracted with the duplicated empty id `""`. -/
theorem C9_ids_amended (root : XElem) (extract_all : Bool)
    (hp : (unitIds nsTransUnit root).Nodup ∧
      ∀ i ∈ unitIds nsTransUnit root, i ≠ "")
    (hf : (unitIds "trans-unit" root).Nodup ∧
      ∀ i ∈ unitIds "trans-unit" root, i ≠ "") :
    ((extract_segments root extract_all).map Segment.id).Nodup ∧
    ∀ s ∈ extract_segments root extract_all,
      s.id ≠ "" ∧
      (s.id ∈ unitIds nsTransUnit root ∨ s.id ∈ unitIds "trans-unit" root) := by
  have hsubP : ((primarySegs root extract_all).map Segment.id).Sublist
      (unitIds nsTransUnit root) :=
    filterMap_seg_id_sublist (primarySeg extract_all)
      (primarySeg_id extract_all) (iterTag nsTransUnit root)
  have hsubF : ((fallbackSegs root).map Segment.id).Sublist
      (unitIds "trans-unit" root) :=
    filterMap_seg_id_sublist fallbackSeg fallbackSeg_id
      (iterTag "trans-unit" root)
  rw [extract_segments_eq]
  by_cases hc : (primarySegs root extract_all).isEmpty = true
  · rw [if_pos hc]
    refine ⟨hsubF.nodup hf.1, ?_⟩
    intro s hs
    have hid : s.id ∈ unitIds "trans-unit" root :=
      hsubF.subset (List.mem_map_of_mem Segment.id hs)
    exact ⟨hf.2 s.id hid, Or.inr hid⟩
  · rw [if_neg hc]
    refine ⟨hsubP.nodup hp.1, ?_⟩
    intro s hs
    have hid : s.id ∈ unitIds nsTransUnit root :=
      hsubP.subset (List.mem_map_of_mem Segment.id hs)
    exact ⟨hp.2 s.id hid, Or.inl hid⟩

/-- Witness for the amended C9: a document with distinct non-empty unit
ids gives uniquely and non-emptily identified segments. -/
theorem C9_ids_amended_witness :
    ((unitIds nsTransUnit C3okDoc).Nodup ∧
      ∀ i ∈ unitIds nsTransUnit C3okDoc, i ≠ "") ∧
    ((unitIds "trans-unit" C3okDoc).Nodup ∧
      ∀ i ∈ unitIds "trans-unit" C3okDoc, i ≠ "") ∧
    (((extract_segments C3okDoc false).map Segment.id).Nodup ∧
      ∀ s ∈ extract_segments C3okDoc false,
        s.id ≠ "" ∧
        (s.id ∈ unitIds nsTransUnit C3okDoc ∨
          s.id ∈ unitIds "trans-unit" C3okDoc)) :=
  ⟨by decide, by decide, C9_ids_amended C3okDoc false (by decide) (by decide)⟩

/-!
## Loading translation results (`load_all_translations`,
tools/merge_translations.py lines 17-31)

A result file parses to `ResultFile` (`none` where a JSON key is
absent), or fails to parse, modelled as `Option ResultFile = none`.
The Python dict is an insertion-ordered association list:
`translations[k] = v` updates the value in place when `k` is present
and appends otherwise, exactly `dictInsert`.  `json.load` of a corrupt
file raises, aborting the function, hence the `Except` result.
-/

/-- One record of a result file's `translations` array: the `id` and
`target` keys when present. -/
structure TrRecord where
  recId : Option String
  recTarget : Option String
deriving DecidableEq, Repr

/-- A parsed result file: its `translations` array when that key is
present. -/
structure ResultFile where
  translations : Option (List TrRecord)
deriving DecidableEq, Repr

/-- The Python dict holding the merged translations, as an
insertion-ordered association list with unique keys. -/
abbrev TrMap := List (String × String)

/-- `translations[k] = v` on a Python dict: overwrite in place if the
key exists, append otherwise. -/
def dictInsert : TrMap → String → String → TrMap
  | [], k, v => [(k, v)]
  | (k0, v0) :: rest, k, v =>
      if k0 = k then (k0, v) :: rest else (k0, v0) :: dictInsert rest k v

/-- `translations[k]` / `k in translations` on a Python dict. -/
def dictGet (m : TrMap) (k : String) : Option String :=
  (m.find? (fun p => p.1 = k)).map (fun p => p.2)

/-- `if 'id' in item and 'target' in item`: the (id, target) pair of a
record when both keys are present. -/
def recordPair (it : TrRecord) : Option (String × String) :=
  match it.recId, it.recTarget with
  | some i, some t => some (i, t)
  | _, _ => none

/-- The per-file loop body: insert every complete record of the file's
`translations` array, in order. -/
def processFile (m : TrMap) (d : ResultFile) : TrMap :=
  match d.translations with
  | none => m
  | some items =>
      items.foldl (fun m it =>
        match recordPair it with
        | some p => dictInsert m p.1 p.2
        | none => m) m

/-- Lexicographic comparison of code-point lists — Python's `<=` on
strings, as used by `sorted`. -/
def charsLe : List Char → List Char → Bool
  | [], _ => true
  | _ :: _, [] => false
  | a :: as, b :: bs =>
      if a < b then true else if b < a then false else charsLe as bs

def insertByName (x : String × Option ResultFile) :
    List (String × Option ResultFile) → List (String × Option ResultFile)
  | [] => [x]
  | y :: ys =>
      if charsLe x.1.data y.1.data then x :: y :: ys else y :: insertByName x ys

/-- `sorted(glob.glob(pattern))`: the result files in ascending filename
order (stable insertion sort; directory entries are distinct anyway). -/
def sortFiles : List (String × Option ResultFile) →
    List (String × Option ResultFile)
  | [] => []
  | x :: xs => insertByName x (sortFiles xs)

/-- The file loop of `load_all_translations`: `json.load` of a corrupt
file raises (first `none` aborts with that filename), otherwise the
file's records are folded into the dict. -/
def loadLoop : TrMap → List (String × Option ResultFile) → Except String TrMap
  | m, [] => Except.ok m
  | _, (name, none) :: _ => Except.error name
  | m, (_, some d) :: rest => loadLoop (processFile m d) rest

/-- `load_all_translations(output_dir)`, on the directory's
(filename, parse result) pairs. -/
def load_all_translations (files : List (String × Option ResultFile)) :
    Except String TrMap :=
  loadLoop [] (sortFiles files)

/-- The complete (id, target) records of one parsed file, in order. -/
def validPairsOf (d : ResultFile) : List (String × String) :=
  match d.translations with
  | none => []
  | some items => items.filterMap recordPair

/-- The concatenated record stream of a file list, in list order. -/
def recordStream : List (String × Option ResultFile) → List (String × String)
  | [] => []
  | (_, none) :: rest => recordStream rest
  | (_, some d) :: rest => validPairsOf d ++ recordStream rest

/-- Folding a record stream into a fresh dict. -/
def buildMap (stream : List (String × String)) : TrMap :=
  stream.foldl (fun m p => dictInsert m p.1 p.2) []

example : dictGet (buildMap [("1", "A"), ("2", "C"), ("1", "B")]) "1" =
    some "B" := by decide
example : sortFiles [("b", none), ("a", none)] = [("a", none), ("b", none)] := by
  decide

theorem foldl_recordPair (items : List TrRecord) (m : TrMap) :
    items.foldl (fun m it =>
        match recordPair it with
        | some p => dictInsert m p.1 p.2
        | none => m) m =
      (items.filterMap recordPair).foldl (fun m p => dictInsert m p.1 p.2) m := by
  induction items generalizing m with
  | nil => rfl
  | cons it items ih =>
      cases h : recordPair it with
      | none => simp [List.filterMap_cons_none h, List.foldl_cons, h, ih]
      | some p => simp [List.filterMap_cons_some h, List.foldl_cons, h, ih]

theorem processFile_eq (m : TrMap) (d : ResultFile) :
    processFile m d =
      (validPairsOf d).foldl (fun m p => dictInsert m p.1 p.2) m := by
  unfold processFile validPairsOf
  cases d.translations with
  | none => rfl
  | some items => exact foldl_recordPair items m

theorem dictGet_cons (k0 v0 : String) (m : TrMap) (k' : String) :
    dictGet ((k0, v0) :: m) k' = if k0 = k' then some v0 else dictGet m k' := by
  simp only [dictGet, List.find?]
  by_cases h : k0 = k'
  · simp [h]
  · simp [h]

theorem dictGet_dictInsert (m : TrMap) (k v k' : String) :
    dictGet (dictInsert m k v) k' = if k' = k then some v else dictGet m k' := by
  induction m with
  | nil =>
      simp only [dictInsert]
      rw [dictGet_cons]
      split_ifs with h1 h2 h3
      · rfl
      · exact absurd h1.symm h2
      · exact absurd h3.symm h1
      · rfl
  | cons p m ih =>
      obtain ⟨k0, v0⟩ := p
      simp only [dictInsert]
      by_cases h0 : k0 = k
      · subst h0
        rw [if_pos rfl, dictGet_cons, dictGet_cons]
        split_ifs with h1 h2 h3
        · rfl
        · exact absurd h1.symm h2
        · exact absurd h3.symm h1
        · rfl
      · rw [if_neg h0, dictGet_cons, dictGet_cons, ih]
        split_ifs with h1 h2 h3
        · exact absurd (h1.trans h2) h0
        · rfl
        · rfl
        · rfl

theorem dictGet_foldl (stream : List (String × String)) (m0 : TrMap)
    (k : String) :
    dictGet (stream.foldl (fun m p => dictInsert m p.1 p.2) m0) k =
      match (stream.filter (fun p => p.1 = k)).getLast? with
      | some p => some p.2
      | none => dictGet m0 k := by
  induction stream using List.reverseRecOn with
  | nil => simp
  | append_singleton l x ih =>
      rw [List.foldl_append, List.foldl_cons, List.foldl_nil,
        dictGet_dictInsert, List.filter_append]
      by_cases h : x.1 = k
      · rw [if_pos h.symm]
        have hfx : List.filter (fun p => decide (p.1 = k)) [x] = [x] := by
          simp [h]
        rw [hfx, List.getLast?_concat]
      · rw [if_neg (fun hx => h hx.symm)]
        have hfx : List.filter (fun p => decide (p.1 = k)) [x] = [] := by
          simp [h]
        rw [hfx, List.append_nil]
        exact ih

theorem loadLoop_ok :
    ∀ (files : List (String × Option ResultFile)) (m0 : TrMap),
      (∀ f ∈ files, f.2 ≠ none) →
      loadLoop m0 files =
        Except.ok ((recordStream files).foldl
          (fun m p => dictInsert m p.1 p.2) m0) := by
  intro files
  induction files with
  | nil =>
      intro m0 _
      rfl
  | cons f rest ih =>
      intro m0 h
      obtain ⟨name, d?⟩ := f
      cases d? with
      | none => exact absurd rfl (h (name, none) (List.mem_cons_self _ _))
      | some d =>
          simp only [loadLoop, recordStream]
          rw [ih (processFile m0 d) (fun g hg => h g (List.mem_cons_of_mem _ hg))]
          rw [processFile_eq, List.foldl_append]

theorem loadLoop_err :
    ∀ (files : List (String × Option ResultFile)) (m0 : TrMap)
      (f : String × Option ResultFile),
      files.find? (fun p => p.2.isNone) = some f →
      loadLoop m0 files = Except.error f.1 := by
  intro files
  induction files with
  | nil =>
      intro m0 f h
      exact absurd h (by simp)
  | cons g rest ih =>
      intro m0 f h
      obtain ⟨name, d?⟩ := g
      cases d? with
      | none =>
          rw [List.find?_cons_of_pos _ (by simp)] at h
          cases h
          rfl
      | some d =>
          rw [List.find?_cons_of_neg _ (by simp)] at h
          simp only [loadLoop]
          exact ih (processFile m0 d) f h

theorem mem_insertByName (x y : String × Option ResultFile)
    (l : List (String × Option ResultFile)) :
    y ∈ insertByName x l ↔ y = x ∨ y ∈ l := by
  induction l with
  | nil => simp [insertByName]
  | cons z l ih =>
      simp only [insertByName]
      split_ifs
      · simp only [List.mem_cons]
      · simp only [List.mem_cons, ih]
        tauto

theorem mem_sortFiles (y : String × Option ResultFile) :
    ∀ l, y ∈ sortFiles l ↔ y ∈ l := by
  intro l
  induction l with
  | nil => simp [sortFiles]
  | cons x l ih => simp [sortFiles, mem_insertByName, ih, List.mem_cons]

/-- A corrupt result file next to a parsable one. -/
def C5files : List (String × Option ResultFile) :=
  [("batch_001.json", none),
   ("batch_002.json", some ⟨some [⟨some "1", some "B"⟩]⟩)]

/-- Counterexample to C5: with a corrupt `batch_001.json` present the
whole load fails (the parse exception propagates), even though the
remaining file alone would load fine — the corrupt file is not skipped. -/
theorem C5_corrupt_skip_counterexample :
    load_all_translations C5files = Except.error "batch_001.json" ∧
    load_all_translations [("batch_002.json", some ⟨some [⟨some "1", some "B"⟩]⟩)] =
      Except.ok [("1", "B")] :=
  ⟨rfl, rfl⟩

/-- C5 amended: a corrupt result file aborts the whole load —
`load_all_translations` fails with the first (in sorted filename order)
unparsable file, and returns the merged map only when every file
parses. -/
theorem C5_corrupt_aborts (files : List (String × Option ResultFile)) :
    (∀ f, (sortFiles files).find? (fun p => p.2.isNone) = some f →
      load_all_translations files = Except.error f.1) ∧
    ((sortFiles files).find? (fun p => p.2.isNone) = none →
      load_all_translations files =
        Except.ok (buildMap (recordStream (sortFiles files)))) := by
  constructor
  · intro f h
    exact loadLoop_err (sortFiles files) [] f h
  · intro h
    have hall : ∀ f ∈ sortFiles files, f.2 ≠ none := by
      intro f hf hnone
      have hp := List.find?_eq_none.mp h f hf
      simp [hnone] at hp
    exact loadLoop_ok (sortFiles files) [] hall

/-- Witness for the amended C5 at its concrete input: the corrupt
`batch_001.json` is the first unparsable file and the load reports it. -/
theorem C5_corrupt_aborts_witness :
    (sortFiles C5files).find? (fun p => p.2.isNone) =
      some ("batch_001.json", none) ∧
    load_all_translations C5files = Except.error "batch_001.json" :=
  ⟨rfl, (C5_corrupt_aborts C5files).1 ("batch_001.json", none) rfl⟩

/-- C6: `load_all_translations` is an ordered fold over the result files
in sorted filename order; for every id the resulting map holds the
target of the last record with that id in the concatenated record
stream — the lexically latest file (and latest position within a file)
wins. -/
theorem C6_last_write_wins (files : List (String × Option ResultFile))
    (h : ∀ f ∈ files, f.2 ≠ none) :
    load_all_translations files =
      Except.ok (buildMap (recordStream (sortFiles files))) ∧
    ∀ k, dictGet (buildMap (recordStream (sortFiles files))) k =
      ((recordStream (sortFiles files)).filter
        (fun p => p.1 = k)).getLast?.map (fun p => p.2) := by
  have hall : ∀ f ∈ sortFiles files, f.2 ≠ none := by
    intro f hf
    exact h f ((mem_sortFiles f files).mp hf)
  constructor
  · exact loadLoop_ok (sortFiles files) [] hall
  · intro k
    unfold buildMap
    rw [dictGet_foldl]
    cases hl : ((recordStream (sortFiles files)).filter
        (fun p => p.1 = k)).getLast? with
    | none => rfl
    | some p => rfl

/-- The spec's last-write-wins example: `batch_001.json` maps id 1 to A,
`batch_002.json` maps id 1 to B (given here out of order, so the sort
matters). -/
def C6files : List (String × Option ResultFile) :=
  [("batch_002.json", some ⟨some [⟨some "1", some "B"⟩]⟩),
   ("batch_001.json", some ⟨some [⟨some "1", some "A"⟩]⟩)]

/-- Witness for C6: the merged map sends id 1 to B, the value from the
lexically latest file. -/
theorem C6_last_write_wins_witness :
    (∀ f ∈ C6files, f.2 ≠ none) ∧
    load_all_translations C6files =
      Except.ok (buildMap (recordStream (sortFiles C6files))) ∧
    dictGet (buildMap (recordStream (sortFiles C6files))) "1" = some "B" :=
  ⟨by decide, (C6_last_write_wins C6files (by decide)).1, by decide⟩

/-!
## Merge engine (`merge_into_sdlxliff`, tools/merge_translations.py
lines 34-62)

The Python loop walks `root.iter('{ns}trans-unit')` in document order,
mutating the live tree: for a unit whose id is a dict key it sets the
`.text` of the unit's first namespaced `target` child (creating an empty
`target` as last child via `ET.SubElement` when absent); otherwise, if
the unit has a namespaced `source` child with non-empty stripped text,
it counts the unit as missing.  `mergeE` renders this as a pure
bottom-up rewrite.  This is equivalent to the in-place pre-order loop:
each unit's decision (id lookup, `find` of target/source, source text)
reads only parts of the tree no other visit mutates — a visit changes
only the text of that unit's first target child or appends a fresh
childless target to that unit, neither of which is a trans-unit or
alters any other unit's direct children, and setting a target's text
commutes with rewriting the subtrees below it.
-/

def XElem.withText : XElem → String → XElem
  | .mk t i _ tl cs, tx => .mk t i tx tl cs

/-- `ET.SubElement(tu, '{ns}target')` followed by `.text = v`: a fresh
target element (no attributes, no children, no tail). -/
def mkTarget (v : String) : XElem := .mk nsTarget none v "" []

/-- Set the text of the first namespaced `target` child — Python's
`tu.find('{ns}target').text = v`. -/
def setFirstTargetText (v : String) : List XElem → List XElem
  | [] => []
  | c :: cs =>
      if c.tag = nsTarget then c.withText v :: cs
      else c :: setFirstTargetText v cs

mutual

/-- The merge loop's effect below one element: the rewritten element,
the merged count and the missing count contributed by trans-units in
its subtree (the element itself included). -/
def mergeE (tr : TrMap) : XElem → XElem × Nat × Nat
  | .mk tag idA tx tl cs =>
      let res := mergeL tr cs
      if tag = nsTransUnit then
        match dictGet tr (idA.getD "") with
        | some v =>
            match findChildL nsTarget cs with
            | some _ =>
                (.mk tag idA tx tl (setFirstTargetText v res.1),
                  res.2.1 + 1, res.2.2)
            | none =>
                (.mk tag idA tx tl (res.1 ++ [mkTarget v]),
                  res.2.1 + 1, res.2.2)
        | none =>
            match findChildL nsSource cs with
            | some source_elem =>
                if pyStrip (itertextE source_elem) = "" then
                  (.mk tag idA tx tl res.1, res.2.1, res.2.2)
                else
                  (.mk tag idA tx tl res.1, res.2.1, res.2.2 + 1)
            | none => (.mk tag idA tx tl res.1, res.2.1, res.2.2)
      else (.mk tag idA tx tl res.1, res.2.1, res.2.2)

def mergeL (tr : TrMap) : List XElem → List XElem × Nat × Nat
  | [] => ([], 0, 0)
  | c :: cs =>
      let rc := mergeE tr c
      let rs := mergeL tr cs
      (rc.1 :: rs.1, rc.2.1 + rs.2.1, rc.2.2 + rs.2.2)

end

/-- `merge_into_sdlxliff`'s returned pair `(merged_count, missing_count)`
together with the rewritten document. -/
def merge_into_sdlxliff (tr : TrMap) (root : XElem) : XElem × Nat × Nat :=
  mergeE tr root

example :
    (mergeE [("1", "X")] (.mk "root" none "" "" [
      .mk nsTransUnit (some "1") "" "" [.mk nsSource none "a" "" []],
      .mk nsTransUnit (some "2") "" "" [.mk nsSource none "b" "" []]])).2 =
    (1, 1) := by decide

mutual

theorem mergeE_counts (tr : TrMap) (e : XElem) :
    (mergeE tr e).2.1 = ((iterTag nsTransUnit e).filter
        (fun tu => (dictGet tr (tu.idAttr.getD "")).isSome)).length ∧
    (mergeE tr e).2.2 = ((iterTag nsTransUnit e).filter
        (fun tu => (dictGet tr (tu.idAttr.getD "")).isNone &&
          (slotText nsSource tu != ""))).length := by
  cases e with
  | mk tag idA tx tl cs =>
      obtain ⟨hL1, hL2⟩ := mergeL_counts tr cs
      by_cases htag : tag = nsTransUnit
      · subst htag
        cases hd : dictGet tr (idA.getD "") with
        | some v =>
            cases hft : findChildL nsTarget cs with
            | some t0 =>
                refine ⟨?_, ?_⟩ <;>
                  simp [mergeE, iterTag, hd, hft, XElem.idAttr, slotText,
                    findChild, XElem.children, List.filter_append,
                    List.filter_cons, hL1, hL2]
            | none =>
                refine ⟨?_, ?_⟩ <;>
                  simp [mergeE, iterTag, hd, hft, XElem.idAttr, slotText,
                    findChild, XElem.children, List.filter_append,
                    List.filter_cons, hL1, hL2]
        | none =>
            cases hfs : findChildL nsSource cs with
            | some se =>
                by_cases hstrip : pyStrip (itertextE se) = ""
                · refine ⟨?_, ?_⟩ <;>
                    simp [mergeE, iterTag, hd, hfs, hstrip, XElem.idAttr,
                      slotText, findChild, XElem.children, List.filter_append,
                      List.filter_cons, hL1, hL2]
                · refine ⟨?_, ?_⟩ <;>
                    simp [mergeE, iterTag, hd, hfs, hstrip, XElem.idAttr,
                      slotText, findChild, XElem.children, List.filter_append,
                      List.filter_cons, hL1, hL2]
            | none =>
                refine ⟨?_, ?_⟩ <;>
                  simp [mergeE, iterTag, hd, hfs, XElem.idAttr, slotText,
                    findChild, XElem.children, List.filter_append,
                    List.filter_cons, hL1, hL2]
      · refine ⟨?_, ?_⟩ <;>
          simp [mergeE, iterTag, htag, XElem.idAttr, List.filter_append,
            hL1, hL2]

theorem mergeL_counts (tr : TrMap) (cs : List XElem) :
    (mergeL tr cs).2.1 = ((iterTagL nsTransUnit cs).filter
        (fun tu => (dictGet tr (tu.idAttr.getD "")).isSome)).length ∧
    (mergeL tr cs).2.2 = ((iterTagL nsTransUnit cs).filter
        (fun tu => (dictGet tr (tu.idAttr.getD "")).isNone &&
          (slotText nsSource tu != ""))).length := by
  cases cs with
  | nil => exact ⟨rfl, rfl⟩
  | cons c cs =>
      obtain ⟨hE1, hE2⟩ := mergeE_counts tr c
      obtain ⟨hL1, hL2⟩ := mergeL_counts tr cs
      refine ⟨?_, ?_⟩ <;>
        simp [mergeL, iterTagL, List.filter_append, hE1, hE2, hL1, hL2]

end

/-- C7 amended: `merge_into_sdlxliff` returns mergedCount equal to the
number of unit nodes whose defaulted id (`tu.get('id','')`, so `""` when
the attribute is absent) is a key of the map, and missingCount equal to
the number of unit nodes whose defaulted id is not a key and whose
trimmed source text is non-empty.  Units with empty source and absent
id are counted in neither only when `""` is not a key of the map. -/
theorem C7_merge_counts (tr : TrMap) (root : XElem) :
    (merge_into_sdlxliff tr root).2.1 = ((iterTag nsTransUnit root).filter
        (fun tu => (dictGet tr (tu.idAttr.getD "")).isSome)).length ∧
    (merge_into_sdlxliff tr root).2.2 = ((iterTag nsTransUnit root).filter
        (fun tu => (dictGet tr (tu.idAttr.getD "")).isNone &&
          (slotText nsSource tu != ""))).length :=
  mergeE_counts tr root

/-- A document whose only trans-unit has no id attribute and no source. -/
def C7doc : XElem := .mk "root" none "" "" [.mk nsTransUnit none "" "" []]

/-- Counterexample to C7: when `""` is a key of the translations map, a
trans-unit with absent id and empty source is merged (mergedCount 1),
contradicting the claim that such units are counted in neither bucket. -/
theorem C7_neither_counterexample :
    (iterTag nsTransUnit C7doc).map
      (fun tu => (tu.idAttr, slotText nsSource tu)) = [(none, "")] ∧
    (merge_into_sdlxliff [("", "X")] C7doc).2.1 = 1 ∧
    (merge_into_sdlxliff [("", "X")] C7doc).2.2 = 0 :=
  ⟨by decide, by decide, by decide⟩

theorem mergeL_cons (tr : TrMap) (c : XElem) (cs : List XElem) :
    (mergeL tr (c :: cs)).1 = (mergeE tr c).1 :: (mergeL tr cs).1 := rfl

theorem mergeL_length (tr : TrMap) : ∀ cs : List XElem,
    (mergeL tr cs).1.length = cs.length := by
  intro cs
  induction cs with
  | nil => rfl
  | cons c cs ih => simp [mergeL, ih]

theorem XElem.withText_tag (e : XElem) (v : String) :
    (e.withText v).tag = e.tag := by
  cases e
  rfl

theorem mergeE_tag (tr : TrMap) (e : XElem) : ((mergeE tr e).1).tag = e.tag := by
  cases e with
  | mk tag idA tx tl cs =>
      by_cases htag : tag = nsTransUnit
      · subst htag
        cases hd : dictGet tr (idA.getD "") with
        | some v =>
            cases hft : findChildL nsTarget cs with
            | some t0 => simp [mergeE, hd, hft, XElem.tag]
            | none => simp [mergeE, hd, hft, XElem.tag]
        | none =>
            cases hfs : findChildL nsSource cs with
            | some se =>
                by_cases hstrip : pyStrip (itertextE se) = "" <;>
                  simp [mergeE, hd, hfs, hstrip, XElem.tag]
            | none => simp [mergeE, hd, hfs, XElem.tag]
      · simp [mergeE, htag, XElem.tag]

mutual

theorem mergeE_noTU (tr : TrMap) (e : XElem)
    (h : iterTag nsTransUnit e = []) : mergeE tr e = (e, 0, 0) := by
  cases e with
  | mk tag idA tx tl cs =>
      by_cases htag : tag = nsTransUnit
      · exfalso
        simp [iterTag, htag] at h
      · have hcs : iterTagL nsTransUnit cs = [] := by
          simpa [iterTag, htag] using h
        have hrec := mergeL_noTU tr cs hcs
        simp [mergeE, htag, hrec]

theorem mergeL_noTU (tr : TrMap) (cs : List XElem)
    (h : iterTagL nsTransUnit cs = []) : mergeL tr cs = (cs, 0, 0) := by
  cases cs with
  | nil => rfl
  | cons c cs =>
      simp only [iterTagL, List.append_eq_nil] at h
      have h1 := mergeE_noTU tr c h.1
      have h2 := mergeL_noTU tr cs h.2
      simp [mergeL, h1, h2]

end

theorem setFirstTarget_mergeL (tr : TrMap) (v : String) :
    ∀ (cs : List XElem) (t : XElem), findChildL nsTarget cs = some t →
      iterTag nsTransUnit t = [] →
      findChildL nsTarget (setFirstTargetText v (mergeL tr cs).1) =
        some (t.withText v) := by
  intro cs
  induction cs with
  | nil =>
      intro t ht _
      exact absurd ht (by simp [findChildL])
  | cons c cs ih =>
      intro t ht hnoTU
      by_cases hc : c.tag = nsTarget
      · have htc : t = c := by
          rw [findChildL, List.find?_cons_of_pos _ (by simp [hc])] at ht
          cases ht
          rfl
        subst htc
        rw [mergeL_cons]
        have hmc : (mergeE tr t).1 = t := by rw [mergeE_noTU tr t hnoTU]
        rw [setFirstTargetText, hmc, if_pos hc]
        rw [findChildL, List.find?_cons_of_pos _ (by simp [XElem.withText_tag, hc])]
      · have ht' : findChildL nsTarget cs = some t := by
          rw [findChildL, List.find?_cons_of_neg _ (by simp [hc])] at ht
          exact ht
        rw [mergeL_cons, setFirstTargetText,
          if_neg (by rw [mergeE_tag]; exact hc)]
        rw [findChildL, List.find?_cons_of_neg _ (by simp [mergeE_tag, hc])]
        exact ih t ht' hnoTU

/-- C10: for a trans-unit whose id is a key of the map, merge only
assigns the direct text of the unit's (first) target element: an
existing target keeps its child nodes (inline markup) in place under
the new text, and when no target exists a fresh childless target is
appended as the last child of the trans-unit; the unit's own tag, id,
text and tail are untouched. -/
theorem C10_merge_target_frame (tr : TrMap) (tu : XElem) (v : String)
    (htag : tu.tag = nsTransUnit)
    (hv : dictGet tr (tu.idAttr.getD "") = some v) :
    ((mergeE tr tu).1).tag = tu.tag ∧
    ((mergeE tr tu).1).idAttr = tu.idAttr ∧
    ((mergeE tr tu).1).text = tu.text ∧
    ((mergeE tr tu).1).tail = tu.tail ∧
    (∀ t, findChild nsTarget tu = some t → iterTag nsTransUnit t = [] →
      findChild nsTarget ((mergeE tr tu).1) = some (t.withText v)) ∧
    (findChild nsTarget tu = none →
      ((mergeE tr tu).1).children = (mergeL tr tu.children).1 ++ [mkTarget v] ∧
      ((mergeE tr tu).1).children.getLast? = some (mkTarget v) ∧
      ((mergeE tr tu).1).children.length = tu.children.length + 1) := by
  cases tu with
  | mk tag idA tx tl cs =>
      simp only [XElem.tag] at htag
      subst htag
      simp only [XElem.idAttr] at hv
      cases hft : findChildL nsTarget cs with
      | some t0 =>
          refine ⟨?_, ?_, ?_, ?_, ?_, ?_⟩
          · simp [mergeE, hv, hft, XElem.tag]
          · simp [mergeE, hv, hft, XElem.idAttr]
          · simp [mergeE, hv, hft, XElem.text]
          · simp [mergeE, hv, hft, XElem.tail]
          · intro t ht hno
            simp only [findChild, XElem.children] at ht
            simp only [mergeE, hv, hft, findChild, XElem.children]
            exact setFirstTarget_mergeL tr v cs t ht hno
          · intro h
            simp only [findChild, XElem.children, hft] at h
            exact Option.noConfusion h
      | none =>
          refine ⟨?_, ?_, ?_, ?_, ?_, ?_⟩
          · simp [mergeE, hv, hft, XElem.tag]
          · simp [mergeE, hv, hft, XElem.idAttr]
          · simp [mergeE, hv, hft, XElem.text]
          · simp [mergeE, hv, hft, XElem.tail]
          · intro t ht hno
            simp only [findChild, XElem.children, hft] at ht
            exact Option.noConfusion ht
          · intro _
            refine ⟨?_, ?_, ?_⟩
            · simp [mergeE, hv, hft, XElem.children]
            · simp [mergeE, hv, hft, XElem.children, List.getLast?_concat]
            · simp [mergeE, hv, hft, XElem.children, mergeL_length]

/-- A trans-unit with an existing target holding inline markup. -/
def C10tu : XElem :=
  .mk nsTransUnit (some "1") "" "" [
    .mk nsSource none "hi" "" [],
    .mk nsTarget none "old" "" [.mk "mrk" none "m" "" []]]

/-- Witness for C10: merging id 1 ↦ "new" into a unit whose target holds
an inline `mrk` child replaces only the target's text; the `mrk` child
survives under the new text. -/
theorem C10_merge_target_frame_witness :
    C10tu.tag = nsTransUnit ∧
    dictGet [("1", "new")] (C10tu.idAttr.getD "") = some "new" ∧
    (((mergeE [("1", "new")] C10tu).1).tag = C10tu.tag ∧
      ((mergeE [("1", "new")] C10tu).1).idAttr = C10tu.idAttr ∧
      ((mergeE [("1", "new")] C10tu).1).text = C10tu.text ∧
      ((mergeE [("1", "new")] C10tu).1).tail = C10tu.tail ∧
      (∀ t, findChild nsTarget C10tu = some t → iterTag nsTransUnit t = [] →
        findChild nsTarget ((mergeE [("1", "new")] C10tu).1) =
          some (t.withText "new")) ∧
      (findChild nsTarget C10tu = none →
        ((mergeE [("1", "new")] C10tu).1).children =
          (mergeL [("1", "new")] C10tu.children).1 ++ [mkTarget "new"] ∧
        ((mergeE [("1", "new")] C10tu).1).children.getLast? =
          some (mkTarget "new") ∧
        ((mergeE [("1", "new")] C10tu).1).children.length =
          C10tu.children.length + 1)) ∧
    findChild nsTarget ((mergeE [("1", "new")] C10tu).1) =
      some (.mk nsTarget none "new" "" [.mk "mrk" none "m" "" []]) :=
  ⟨rfl, rfl,
   C10_merge_target_frame [("1", "new")] C10tu "new" rfl rfl,
   rfl⟩
